import Mathlib

/-!
Verification of the SIRIUS build system's dependency-resolution and
build-staleness core (sirius.js.old and sirius_modules/), via a shallow
embedding of its functions into Lean. External collaborators (the Node
path/fs modules, the shell, the directory walker) are modelled as explicit
parameters or abstract environments; the control flow of each embedded
function is translated line by line from the JavaScript source.
-/

/-! ## String helpers (JavaScript semantics) -/

/-- Lexicographic comparison of character lists (models the default
JavaScript Array.sort comparator applied to strings). -/
def charsLe : List Char → List Char → Bool
  | [], _ => true
  | _ :: _, [] => false
  | a :: as, b :: bs => if a < b then true else if b < a then false else charsLe as bs

/-- String comparison for the default JavaScript sort order. -/
def strLeB (a b : String) : Bool := charsLe a.toList b.toList

/-- Split a character list on a separator character, JavaScript
String.prototype.split semantics: splitting the empty string yields one
empty field. -/
def splitChar (sep : Char) : List Char → List (List Char)
  | [] => [[]]
  | c :: cs =>
    let r := splitChar sep cs
    if c == sep then [] :: r
    else
      match r with
      | [] => [[c]]
      | g :: gs => (c :: g) :: gs

/-- Join character lists with a separator character (Array.prototype.join). -/
def joinChar (sep : Char) : List (List Char) → List Char
  | [] => []
  | [g] => g
  | g :: gs => g ++ sep :: joinChar sep gs

/-- Does the first list start with the second (text, pattern)?
Models testFQN.indexOf(pattern) === 0. -/
def startsWithChars : List Char → List Char → Bool
  | _, [] => true
  | [], _ :: _ => false
  | t :: ts, p :: ps => t == p && startsWithChars ts ps

/-- String wrapper for startsWithChars. -/
def strStartsWith (s pat : String) : Bool := startsWithChars s.toList pat.toList

/-- Drop leading whitespace characters. -/
def dropLeadingWs : List Char → List Char
  | [] => []
  | c :: cs => if c.isWhitespace then dropLeadingWs cs else c :: cs

/-- JavaScript String.prototype.trim: drop whitespace at both ends. -/
def trimChars (cs : List Char) : List Char :=
  (dropLeadingWs ((dropLeadingWs cs).reverse)).reverse

/-- String wrapper for trimChars. -/
def jsTrim (s : String) : String := String.mk (trimChars s.toList)

/-- A character of the JavaScript regex word class net of underscore:
the characters NOT matched by the [\W_] class of libNameReplacePattern. -/
def isWordChar (c : Char) : Bool := c.isAlpha || c.isDigit

/-- Replace every maximal run of characters outside [A-Za-z0-9] by a single
dash (the global replace with libNameReplacePattern). The flag records
whether the previous character belonged to such a run. -/
def collapseRuns : Bool → List Char → List Char
  | _, [] => []
  | inRun, c :: cs =>
    if isWordChar c then c :: collapseRuns false cs
    else if inRun then collapseRuns true cs
    else '-' :: collapseRuns true cs

/-- toBinaryFileName (sirius.js.old, lines 199-201): canonical binary file
name of a raw project name — trim, lower-case, collapse non-alphanumeric
runs to dashes. -/
def toBinaryFileName (rawName : String) : String :=
  String.mk (collapseRuns false ((trimChars rawName.toList).map Char.toLower))

/-- Insert a string into a sorted list (helper for sortStrings). -/
def insertSorted (x : String) : List String → List String
  | [] => [x]
  | y :: ys => if strLeB x y then x :: y :: ys else y :: insertSorted x ys

/-- Sort a list of strings ascending, modelling swcPaths.sort() from the
source. Since equal strings are indistinguishable, any correct sort agrees
with the JavaScript engine's. -/
def sortStrings : List String → List String
  | [] => []
  | x :: xs => insertSorted x (sortStrings xs)

/-! ## Data model: inclusion entries (getInclusionsMap record format) -/

/-- The field of a record that getMatchingSWCs searches (its searchField
argument: the string "swcClasses" or "globalSwcClasses"). -/
inductive SField
  | swcClasses
  | globalSwcClasses
deriving DecidableEq

/-- A LibraryRecord / inclusion entry as built by getInclusionsMap:
an artifact path plus the class FQNs it provides. -/
structure Inclusion where
  swcPath : String
  swcClasses : List String
  globalSwcClasses : List String
deriving DecidableEq

/-- record[searchField] lookup. -/
def fieldClasses (r : Inclusion) : SField → List String
  | SField.swcClasses => r.swcClasses
  | SField.globalSwcClasses => r.globalSwcClasses

/-! ## DependencyResolver: getMatchingSWCs (sirius.js.old, lines 493-545) -/

/-- havePartialFqn: the request's last character is the wildcard star
(fqn[fqn.length - 1] === the star character). -/
def isWildcardFqn (fqn : String) : Bool :=
  match fqn.toList.getLast? with
  | some c => c == '*'
  | none => false

/-- fqn.split(dot).slice(0, -1).join(dot): the package stem of a wildcard
request, obtained by dropping the final path segment. -/
def wildcardStem (fqn : String) : String :=
  String.mk (joinChar '.' ((splitChar '.' fqn.toList).dropLast))

/-- The per-record match test inside inclusions.filter: for a wildcard
request, some class of the searched field has the stem as a character
prefix (testFQN.indexOf(stem) === 0); for an exact request, the field
contains the request literally. -/
def recordMatches (field : SField) (fqn : String) (r : Inclusion) : Bool :=
  if isWildcardFqn fqn then
    ((fieldClasses r field).filter (fun t => strStartsWith t (wildcardStem fqn))).length > 0
  else
    (fieldClasses r field).contains fqn

/-- The push into swcPaths: skipped for an empty (falsy) path or one already
present (swcPaths.indexOf(match) === -1 check). -/
def pushUnique (acc : List String) (m : String) : List String :=
  if m != "" && !(acc.contains m) then acc ++ [m] else acc

/-- One iteration of the classFQNs.forEach loop: collects the matching
record paths, truncates exact-form collisions to the first match while
recording a warning naming the request and every colliding path, then
pushes the kept paths into the accumulator. -/
def matchStep (inclusions : List Inclusion) (field : SField)
    (acc : List String × List (String × List String)) (fqn : String) :
    List String × List (String × List String) :=
  let matching := (inclusions.filter (recordMatches field fqn)).map Inclusion.swcPath
  let wild := isWildcardFqn fqn
  let collided := !wild && matching.length > 1
  let kept := if collided then matching.take 1 else matching
  let warns := if collided then acc.2 ++ [(fqn, matching)] else acc.2
  (kept.foldl pushUnique acc.1, warns)

/-- getMatchingSWCs: resolves class FQNs against the inclusions map.
Returns the resolved artifact paths (sorted ascending then reversed, as in
the source) together with the list of collision warnings emitted. -/
def getMatchingSWCs (inclusions : List Inclusion) (classFQNs : List String)
    (field : SField) : List String × List (String × List String) :=
  if inclusions.isEmpty || classFQNs.isEmpty then ([], [])
  else
    let acc := classFQNs.foldl (matchStep inclusions field) ([], [])
    ((sortStrings acc.1).reverse, acc.2)

/-- Whole-segment package test used by the specification's wording: pkg
leads cls on whole dotted-path segments (cls equals pkg or continues it at
a dot boundary). -/
def segmentMatch (pkg cls : String) : Bool :=
  cls == pkg || startsWithChars cls.toList (pkg.toList ++ ['.'])

/-! ### Resolver lemmas -/

theorem mem_insertSorted (x y : String) (l : List String) :
    y ∈ insertSorted x l ↔ y = x ∨ y ∈ l := by
  induction l with
  | nil => simp [insertSorted]
  | cons a as ih =>
    by_cases h : strLeB x a = true
    · simp [insertSorted, h]
    · simp only [insertSorted, if_neg h, List.mem_cons, ih]
      tauto

theorem mem_sortStrings (y : String) (l : List String) :
    y ∈ sortStrings l ↔ y ∈ l := by
  induction l with
  | nil => simp [sortStrings]
  | cons a as ih => simp [sortStrings, mem_insertSorted, ih]

theorem mem_pushUnique (acc : List String) (m x : String) :
    x ∈ pushUnique acc m ↔ x ∈ acc ∨ (x = m ∧ m ≠ "") := by
  unfold pushUnique
  split
  case isTrue h =>
    have hm : m ≠ "" := by
      intro hz
      subst hz
      simp at h
    simp only [List.mem_append, List.mem_singleton]
    tauto
  case isFalse h =>
    have hcase : m = "" ∨ m ∈ acc := by
      by_contra hcon
      push_neg at hcon
      apply h
      have hc : acc.contains m = false := by
        simpa using hcon.2
      have h1 : (m != "") = true := bne_iff_ne.mpr hcon.1
      rw [h1, hc]
      rfl
    constructor
    · exact Or.inl
    · rintro (hx | ⟨rfl, hne⟩)
      · exact hx
      · rcases hcase with h1 | h2
        · exact absurd h1 hne
        · exact h2

theorem mem_foldl_pushUnique (l : List String) (acc : List String) (x : String) :
    x ∈ l.foldl pushUnique acc ↔ x ∈ acc ∨ (x ∈ l ∧ x ≠ "") := by
  induction l generalizing acc with
  | nil => simp
  | cons a as ih =>
    simp only [List.foldl_cons, ih, mem_pushUnique, List.mem_cons]
    constructor
    · rintro ((hx | ⟨rfl, hne⟩) | ⟨hmem, hne⟩)
      · exact Or.inl hx
      · exact Or.inr ⟨Or.inl rfl, hne⟩
      · exact Or.inr ⟨Or.inr hmem, hne⟩
    · rintro (hx | ⟨hmem | hmem, hne⟩)
      · exact Or.inl (Or.inl hx)
      · exact Or.inl (Or.inr ⟨hmem, hmem ▸ hne⟩)
      · exact Or.inr ⟨hmem, hne⟩

/-! ### Claim C1: wildcard resolution semantics -/

/-- C1 counterexample: with an index whose only record provides the class
com.acmeplus.Widget, the package-wildcard request com.acme.* selects that
record (character-prefix match in the source), although no class of the
searched field has com.acme as a whole-segment package. This refutes the
claim that selection happens exactly on whole-segment matches. -/
theorem c1_wildcard_cex :
    ¬ (("acmeplus.swc" ∈ (getMatchingSWCs
        [⟨"acmeplus.swc", ["com.acmeplus.Widget"], []⟩]
        ["com.acme.*"] SField.swcClasses).1) ↔
      (∃ c ∈ (["com.acmeplus.Widget"] : List String),
        segmentMatch "com.acme" c = true)) := by
  decide

/-- C1 (amended): for every index and every wildcard request, resolve
(getMatchingSWCs) selects a path exactly when it is non-empty and some
record carrying it has a class in the searched field with the request's
package stem as a plain character prefix — so com.acme.* also matches a
record whose classes live in a package such as com.acmeplus. -/
theorem c1_wildcard_amended (inclusions : List Inclusion) (fqn : String)
    (field : SField) (p : String) (hw : isWildcardFqn fqn = true) :
    p ∈ (getMatchingSWCs inclusions [fqn] field).1 ↔
      p ≠ "" ∧ ∃ r ∈ inclusions, r.swcPath = p ∧
        ∃ c ∈ fieldClasses r field, strStartsWith c (wildcardStem fqn) = true := by
  have hrec : ∀ r : Inclusion, recordMatches field fqn r = true ↔
      ∃ c ∈ fieldClasses r field, strStartsWith c (wildcardStem fqn) = true := by
    intro r
    simp only [recordMatches, hw, if_pos, decide_eq_true_eq]
    rw [gt_iff_lt, List.length_pos]
    constructor
    · intro hne
      rcases List.exists_mem_of_ne_nil _ hne with ⟨c, hc⟩
      rcases List.mem_filter.mp hc with ⟨hcmem, hcp⟩
      exact ⟨c, hcmem, hcp⟩
    · rintro ⟨c, hcmem, hcp⟩
      intro hnil
      have hcf : c ∈ List.filter (fun t => strStartsWith t (wildcardStem fqn))
          (fieldClasses r field) := List.mem_filter.mpr ⟨hcmem, hcp⟩
      rw [hnil] at hcf
      simp at hcf
  cases inclusions with
  | nil => simp [getMatchingSWCs]
  | cons a as =>
    have hstep : matchStep (a :: as) field ([], []) fqn
        = ((((a :: as).filter (recordMatches field fqn)).map
            Inclusion.swcPath).foldl pushUnique [], []) := by
      unfold matchStep
      simp [hw]
    unfold getMatchingSWCs
    have hcond : ((a :: as).isEmpty || ([fqn] : List String).isEmpty) = false := rfl
    rw [hcond]
    simp only [Bool.false_eq_true, if_false, List.foldl_cons, List.foldl_nil]
    rw [hstep]
    rw [List.mem_reverse, mem_sortStrings, mem_foldl_pushUnique]
    simp only [List.not_mem_nil, false_or, List.mem_map, List.mem_filter]
    constructor
    · rintro ⟨⟨r, ⟨hrmem, hrmatch⟩, hrp⟩, hne⟩
      exact ⟨hne, r, hrmem, hrp, (hrec r).mp hrmatch⟩
    · rintro ⟨hne, r, hrmem, hrp, hcls⟩
      exact ⟨⟨r, ⟨hrmem, (hrec r).mpr hcls⟩, hrp⟩, hne⟩

/-- C1 amended witness at a concrete index and request. -/
theorem c1_wildcard_amended_wit :
    isWildcardFqn "com.acme.*" = true ∧
    (("acmeplus.swc" ∈ (getMatchingSWCs
        [⟨"acmeplus.swc", ["com.acmeplus.Widget"], []⟩]
        ["com.acme.*"] SField.swcClasses).1) ↔
      "acmeplus.swc" ≠ "" ∧
      ∃ r ∈ ([⟨"acmeplus.swc", ["com.acmeplus.Widget"], []⟩] : List Inclusion),
        r.swcPath = "acmeplus.swc" ∧
        ∃ c ∈ fieldClasses r SField.swcClasses,
          strStartsWith c (wildcardStem "com.acme.*") = true) :=
  ⟨by decide, c1_wildcard_amended
    [⟨"acmeplus.swc", ["com.acmeplus.Widget"], []⟩]
    "com.acme.*" SField.swcClasses "acmeplus.swc" (by decide)⟩

/-! ### Claim C6: exact-match collision precedence -/

/-- C6: when an exact (non-wildcard) requested class is provided by more
than one distinct artifact, resolve keeps only the first matching artifact
in index order and emits a warning naming all colliding artifacts. -/
theorem c6_collision_first (inclusions : List Inclusion) (fqn : String)
    (field : SField) (m : String) (rest : List String)
    (hnw : isWildcardFqn fqn = false)
    (hE : (inclusions.filter (recordMatches field fqn)).map Inclusion.swcPath
      = m :: rest)
    (hdist : 2 ≤ ((m :: rest).dedup).length)
    (hm : m ≠ "") :
    getMatchingSWCs inclusions [fqn] field = ([m], [(fqn, m :: rest)]) := by
  have hne : inclusions ≠ [] := by
    intro h
    subst h
    simp at hE
  have hlen : 1 < (m :: rest).length := by
    have hsub : (m :: rest).dedup.length ≤ (m :: rest).length :=
      (List.dedup_sublist _).length_le
    omega
  have hstep : matchStep inclusions field ([], []) fqn = ([m], [(fqn, m :: rest)]) := by
    unfold matchStep
    rw [hE]
    simp only [hnw, Bool.not_false, Bool.true_and, hlen, decide_eq_true_eq, if_pos,
      List.take_cons, List.take_zero]
    have hpush : pushUnique [] m = [m] := by
      unfold pushUnique
      have h1 : (m != "") = true := bne_iff_ne.mpr hm
      rw [h1]
      rfl
    simp [hpush]
  cases inclusions with
  | nil => exact absurd rfl hne
  | cons a as =>
    unfold getMatchingSWCs
    have hcond : ((a :: as).isEmpty || ([fqn] : List String).isEmpty) = false := rfl
    rw [hcond]
    simp only [Bool.false_eq_true, if_false, List.foldl_cons, List.foldl_nil]
    rw [hstep]
    simp [sortStrings, insertSorted]

/-- C6 witness: two artifacts both provide the exact class a.B; resolve
returns only the first and warns naming both. -/
theorem c6_collision_first_wit :
    getMatchingSWCs
      [⟨"first.swc", ["a.B"], []⟩, ⟨"second.swc", ["a.B"], []⟩]
      ["a.B"] SField.swcClasses
      = (["first.swc"], [("a.B", ["first.swc", "second.swc"])]) :=
  c6_collision_first
    [⟨"first.swc", ["a.B"], []⟩, ⟨"second.swc", ["a.B"], []⟩]
    "a.B" SField.swcClasses "first.swc" ["second.swc"]
    (by decide) (by decide) (by decide) (by decide)

/-! ## LibraryIndexer: getInclusionsMap (sirius.js.old, lines 582-688) -/

/-- getInclusionsMap with its I/O made explicit: cache is the content of
the sirius.inclusions.cache file at the workspace root (none when the file
does not exist), parse models JSON.parse applied to the trimmed cache text
(none for an exception), scan models the workspace directory scan of lines
608-679 (the listFolders / readSwcClasses / getProjectApplications loop
that rebuilds the inclusions array), and serialize models JSON.stringify.
Returns the inclusions together with the content written back to the cache
file (none when nothing is written). -/
def getInclusionsMap (cache : Option String)
    (parse : String → Option (List Inclusion))
    (scan : Unit → List Inclusion)
    (serialize : List Inclusion → String) :
    List Inclusion × Option String :=
  let cacheExists := cache.isSome
  let afterRead : List Inclusion × Bool :=
    match cache with
    | none => ([], false)
    | some raw =>
      let cachedInclusions := jsTrim raw
      if cachedInclusions == "" then ([], false)
      else
        match parse cachedInclusions with
        | some inclusions => (inclusions, false)
        | none => ([], true)
  let cacheCorrupted := afterRead.2
  if !cacheExists || cacheCorrupted then
    let rebuilt := scan ()
    (rebuilt, some (serialize rebuilt))
  else
    (afterRead.1, none)

/-- Concrete parser used by witnesses: accepts exactly one cache text. -/
def parseDemo : String → Option (List Inclusion) :=
  fun s => if s == "cached-index" then some [⟨"lib.swc", ["a.B"], []⟩] else none

/-- Concrete scan used by witnesses: a rebuild that finds one library. -/
def scanDemo : Unit → List Inclusion := fun _ => [⟨"rebuilt.swc", ["c.D"], []⟩]

/-- Concrete serializer used by witnesses. -/
def serializeDemo : List Inclusion → String :=
  fun l => if l.isEmpty then "empty" else "full"

/-! ### Claim C3: cache short-circuit -/

/-- C3: when the workspace cache file exists and its content parses as
valid structured data, getInclusionsMap returns exactly the parsed content,
writes nothing back, and never consults the directory scan — the result is
identical for every scan function, hence independent of the current
filesystem contents of the project directories. -/
theorem c3_cache_hit (raw : String) (parse : String → Option (List Inclusion))
    (serialize : List Inclusion → String) (v : List Inclusion)
    (hne : jsTrim raw ≠ "") (hp : parse (jsTrim raw) = some v) :
    ∀ scan : Unit → List Inclusion,
      getInclusionsMap (some raw) parse scan serialize = (v, none) := by
  intro scan
  unfold getInclusionsMap
  have hb : (jsTrim raw == "") = false := by
    simp [hne]
  simp [hb, hp]

/-- C3 witness at a concrete cache content. -/
theorem c3_cache_hit_wit :
    jsTrim " cached-index " ≠ "" ∧
    getInclusionsMap (some " cached-index ") parseDemo scanDemo serializeDemo
      = ([⟨"lib.swc", ["a.B"], []⟩], none) :=
  ⟨by decide, c3_cache_hit " cached-index " parseDemo serializeDemo
    [⟨"lib.swc", ["a.B"], []⟩] (by decide) (by decide) scanDemo⟩

/-! ### Claim C4: cache corruption fallback -/

/-- C4 counterexample: the cache file exists with whitespace-only content,
which does not parse as structured data, yet getInclusionsMap performs no
rebuild and persists nothing: it returns the initial empty index instead of
the scan result. This refutes the claim for empty/whitespace-only cache
content. -/
theorem c4_empty_cache_cex :
    getInclusionsMap (some "   ") parseDemo scanDemo serializeDemo = ([], none) ∧
    parseDemo (jsTrim "   ") = none ∧
    scanDemo () ≠ [] ∧
    (([], none) : List Inclusion × Option String)
      ≠ (scanDemo (), some (serializeDemo (scanDemo ()))) := by
  decide

/-- C4 (amended): when the cache file exists and its trimmed content is
non-empty but fails to parse, getInclusionsMap silently rebuilds via the
directory scan, persists the rebuilt index back, and returns it; when the
trimmed content is empty the cache phase yields the empty index with no
rebuild and no persist (see the counterexample); no hard failure occurs in
either case. -/
theorem c4_rebuild_amended (raw : String)
    (parse : String → Option (List Inclusion))
    (scan : Unit → List Inclusion) (serialize : List Inclusion → String)
    (hne : jsTrim raw ≠ "") (hp : parse (jsTrim raw) = none) :
    getInclusionsMap (some raw) parse scan serialize
      = (scan (), some (serialize (scan ()))) := by
  unfold getInclusionsMap
  have hb : (jsTrim raw == "") = false := by
    simp [hne]
  simp [hb, hp]

/-- C4 amended witness at a concrete corrupted cache content. -/
theorem c4_rebuild_amended_wit :
    jsTrim "oops" ≠ "" ∧
    getInclusionsMap (some "oops") parseDemo scanDemo serializeDemo
      = (scanDemo (), some (serializeDemo (scanDemo ()))) :=
  ⟨by decide, c4_rebuild_amended "oops" parseDemo scanDemo serializeDemo
    (by decide) (by decide)⟩

/-! ## ArchiveInspector: readSwcClasses (sirius.js.old, lines 335-345) -/

/-- Match a literal character sequence at the head of the input, returning
the remainder. -/
def dropExact : List Char → List Char → Option (List Char)
  | [], cs => some cs
  | _ :: _, [] => none
  | l :: ls, c :: cs => if c == l then dropExact ls cs else none

/-- Greedy run of characters other than the double quote (the id capture
of swcDefPattern), plus the rest. -/
def takeIdChars : List Char → List Char × List Char
  | [] => ([], [])
  | c :: cs =>
    if c == '\"' then ([], c :: cs)
    else
      let r := takeIdChars cs
      (c :: r.1, r.2)

/-- A character of the JavaScript regex whitespace class. -/
def jsIsSpace (c : Char) : Bool :=
  c.isWhitespace || c == '\x0b' || c == '\x0c'

/-- Greedy run of whitespace characters, plus the rest. -/
def takeSpaces : List Char → List Char × List Char
  | [] => ([], [])
  | c :: cs =>
    if jsIsSpace c then
      let r := takeSpaces cs
      (c :: r.1, r.2)
    else ([], c :: cs)

/-- The literal opening of swcDefPattern. -/
def defOpening : List Char := ['<', 'd', 'e', 'f', ' ', 'i', 'd', '=', '\"']

/-- Try to match swcDefPattern at the head of the input; on success return
the captured id and the input following the match. -/
def matchDefAt (cs : List Char) : Option (String × List Char) :=
  match dropExact defOpening cs with
  | none => none
  | some afterOpen =>
    let idr := takeIdChars afterOpen
    if idr.1.isEmpty then none
    else
      match idr.2 with
      | '\"' :: afterQuote =>
        let sp := takeSpaces afterQuote
        if sp.1.isEmpty then none
        else
          match sp.2 with
          | '/' :: '>' :: rest => some (String.mk idr.1, rest)
          | _ => none
      | _ => none

/-- Left-to-right non-overlapping scan for swcDefPattern matches (the
global regex match), returning the captured ids. Fuel bounds the scan;
every step consumes at least one character, so the input length always
suffices. -/
def scanDefsAux : Nat → List Char → List String
  | 0, _ => []
  | _ + 1, [] => []
  | fuel + 1, c :: rest =>
    match matchDefAt (c :: rest) with
    | some (cid, after) => cid :: scanDefsAux fuel after
    | none => scanDefsAux fuel rest

/-- All ids captured by the global swcDefPattern match over stdout. -/
def scanDefs (s : String) : List String := scanDefsAux s.toList.length s.toList

/-- Replace the first colon by a dot (JavaScript String.replace with a
string pattern replaces only the first occurrence). -/
def replaceFirstColon : List Char → List Char
  | [] => []
  | c :: cs => if c == ':' then '.' :: cs else c :: replaceFirstColon cs

/-- readSwcClasses: shells out to read the archive's catalog (modelled by
the exit code and stdout of that command) and extracts the declared class
ids. Faithful to the source: result.stdout.match with a global regex
yields null when there is no match, and the subsequent .map on null raises
a TypeError — modelled as none. A non-zero exit code returns the empty
list. -/
def readSwcClasses (exitCode : Int) (stdout : String) : Option (List String) :=
  if exitCode == 0 then
    let found := scanDefs stdout
    if found.isEmpty then none
    else
      some ((found.map (fun d => String.mk (replaceFirstColon d.toList))).filter
        (fun d => d.toList.head? != some '_'))
  else
    some []

/-! ### Claim C5: ArchiveInspector totality -/

/-- C5: readSwcClasses is not total. When the inspection command succeeds
but its output declares no class identifiers, the source calls .map on the
null result of String.match and raises a TypeError (first conjunct). On a
failing exit code it returns the empty list, and on a successful match it
returns the ids with colons rewritten to dots and underscore-led
identifiers dropped (remaining conjuncts). -/
theorem c5_readSwcClasses_bug :
    readSwcClasses 0 "<swc></swc>" = none ∧
    readSwcClasses 1 "ignored" = some [] ∧
    readSwcClasses 0 "<def id=\"a:B\" /> <def id=\"_priv:C\" />"
      = some ["a.B"] := by
  decide

/-! ## PathFilterEngine: listFiles (file_management_utils.js, lines 180-289) -/

/-- A node of the directory tree beneath the listed folder. -/
inductive FsEntry
  | file (name : String)
  | dir (name : String) (children : List FsEntry)

/-- path.join step of the walk. -/
def joinP (d n : String) : String := d ++ "/" ++ n

/-- walkSync: for every entry of a directory push its path, and recurse
into sub-directories (depth-first, pre-order). -/
def walkEntries (base : String) : List FsEntry → List String
  | [] => []
  | FsEntry.file n :: es => joinP base n :: walkEntries base es
  | FsEntry.dir n cs :: es =>
      (joinP base n :: walkEntries (joinP base n) cs) ++ walkEntries base es

/-- listFiles translated from the source. The folder-validity check is the
fs.existsSync / statSync guard (an invalid folder returns an empty array).
On a valid folder the walk fills the const allPaths array, after which the
MAIN block reassigns the const binding (allPaths = allPaths.filter, a
TypeError caught by the surrounding try/catch) and the function body ends
with no return statement — the call therefore evaluates to undefined,
modelled as none. -/
def listFiles (folderIsValidDir : Bool) (rootPath : String)
    (entries : List FsEntry) (filters : List String)
    (useRelativePaths dropExtension : Bool) : Option (List String) :=
  if !folderIsValidDir then some []
  else
    let allPaths := walkEntries rootPath entries
    let _walked := allPaths
    let _requestedFilters := filters
    let _requestedTransforms := (useRelativePaths, dropExtension)
    none

/-! ### Claim C2: listFiles contract -/

/-- C2: listFiles never returns the computed listing. On a valid folder the
traversal does discover the contained paths (walkEntries finds them), but
the function falls off the end after the swallowed const-reassignment
TypeError and yields undefined (none) — with or without filters — instead
of the documented array of paths; only the invalid-folder guard returns an
array (the empty one). -/
theorem c2_listFiles_bug :
    walkEntries "/ws" [FsEntry.file "a.txt"] = ["/ws/a.txt"] ∧
    listFiles true "/ws" [FsEntry.file "a.txt"] [] false false = none ∧
    listFiles true "/ws" [FsEntry.file "a.txt"] ["FILES_ONLY"] false false = none ∧
    listFiles false "/ws" [] [] false false = some [] := by
  simp [walkEntries, listFiles, joinP]

/-! ## Environment for StalenessEvaluator and CacheInvalidator -/

/-- Abstract environment binding the collaborators consulted by
mustBuildProject and deleteCache: the fs/path modules (existsSync, dirname,
resolve/join, realpathSync, mtimes), getSrcFolderOf, getWorkspacePaths
(index 0), getInclusionsMap in silent mode, listClassImports,
getProjectApplications and the all-files directory listing. Binding them
as functions keeps the control flow of the two embedded operations exactly
as in the source while abstracting their I/O. -/
structure Env where
  pathExists : String → Bool
  dirname : String → String
  joinPath : String → String → String
  srcFolderOf : String → Option String
  workspaceOf : String → String
  inclusionsOf : String → List Inclusion
  classImportsOf : String → List String
  projectAppsOf : String → List String
  baseName : String → String
  baseNameNoExt : String → String
  mtimeOf : String → Int
  allSrcFiles : String → List String
  realpathOf : String → Option String
  onWindows : Bool

/-- pathsAreEqual (file_management_utils.js, lines 83-101): resolve both
paths through realpath (an exception on either, modelled as none, yields
false), then compare case-insensitively on win32 and literally elsewhere. -/
def pathsAreEqual (env : Env) (p1 p2 : String) : Bool :=
  match env.realpathOf p1, env.realpathOf p2 with
  | some a, some b =>
    if env.onWindows then
      String.mk (a.toList.map Char.toLower) == String.mk (b.toList.map Char.toLower)
    else a == b
  | _, _ => false

/-- The expected binary artifact path of a project (lines 388-399 and
444-455): the most recently modified application entry file names a .swf
in the bin folder, otherwise the project directory names a .swc. -/
def binaryPathOf (env : Env) (projectFolderPath sourceFolder binFolder : String) :
    String :=
  match (env.projectAppsOf sourceFolder).head? with
  | some projectActiveApp =>
    env.joinPath binFolder (toBinaryFileName (env.baseNameNoExt projectActiveApp) ++ ".swf")
  | none =>
    env.joinPath binFolder (toBinaryFileName (env.baseName projectFolderPath) ++ ".swc")

/-- The resolved dependency artifacts of a project (lines 372-375 and
430-432): the workspace index resolved against the source root's class
imports, default search field. -/
def externalSWCsOf (env : Env) (projectFolderPath sourceFolder : String) :
    List String :=
  (getMatchingSWCs (env.inclusionsOf (env.workspaceOf projectFolderPath))
    (env.classImportsOf sourceFolder) SField.swcClasses).1

/-- The non-recursive tail of mustBuildProject (lines 387-413): the project
itself is stale when its expected artifact is missing or any source file
under the source root is strictly newer than it. -/
def mustBuildLocal (env : Env) (projectFolderPath sourceFolder binFolder : String) :
    Bool :=
  let binaryFilePath := binaryPathOf env projectFolderPath sourceFolder binFolder
  if binaryFilePath == "" || !(env.pathExists binaryFilePath) then true
  else
    let binaryFileModificationTime := env.mtimeOf binaryFilePath
    (env.allSrcFiles sourceFolder).any
      (fun srcFilePath => binaryFileModificationTime < env.mtimeOf srcFilePath)

/-- mustBuildProject (sirius.js.old, lines 361-414), with a fuel parameter
bounding the recursion depth (the source recursion is unbounded; fuel 0
returns false and is never reached in the claims' hypotheses). -/
def mustBuildProject (env : Env) : Nat → String → Bool
  | 0, _ => false
  | fuel + 1, projectFolderPath =>
    if projectFolderPath == "" || !(env.pathExists projectFolderPath) then false
    else
      match env.srcFolderOf projectFolderPath with
      | none => false
      | some sourceFolder =>
        if sourceFolder == "" || !(env.pathExists sourceFolder) then false
        else
          let binFolder := env.joinPath (env.dirname sourceFolder) "bin"
          if !(env.pathExists binFolder) then true
          else
            if (externalSWCsOf env projectFolderPath sourceFolder).any
                (fun swcPath =>
                  !(pathsAreEqual env (env.dirname (env.dirname swcPath))
                      projectFolderPath)
                    && mustBuildProject env fuel (env.dirname (env.dirname swcPath)))
            then true
            else mustBuildLocal env projectFolderPath sourceFolder binFolder

/-! ### Claim C7: staleness from fresh sources -/

/-- C7: for a project whose path and source root exist, whose bin folder
exists, none of whose non-self dependency projects needs rebuilding, and
whose expected artifact file exists, mustBuildProject returns true exactly
when some source file under the source root has a modification time
strictly newer than the artifact's. -/
theorem c7_fresh_source (env : Env) (fuel : Nat) (p src : String)
    (hp0 : p ≠ "") (hp : env.pathExists p = true)
    (hs : env.srcFolderOf p = some src) (hs0 : src ≠ "")
    (hse : env.pathExists src = true)
    (hb : env.pathExists (env.joinPath (env.dirname src) "bin") = true)
    (hdeps : ∀ swcPath ∈ externalSWCsOf env p src,
      pathsAreEqual env (env.dirname (env.dirname swcPath)) p = false →
      mustBuildProject env fuel (env.dirname (env.dirname swcPath)) = false)
    (hbin0 : binaryPathOf env p src (env.joinPath (env.dirname src) "bin") ≠ "")
    (hbin : env.pathExists
      (binaryPathOf env p src (env.joinPath (env.dirname src) "bin")) = true) :
    mustBuildProject env (fuel + 1) p = true ↔
      ∃ f ∈ env.allSrcFiles src,
        env.mtimeOf (binaryPathOf env p src (env.joinPath (env.dirname src) "bin"))
          < env.mtimeOf f := by
  have hc1 : (p == "" || !env.pathExists p) = false := by
    have h0 : (p == "") = false := by simpa using hp0
    rw [h0, hp]
    rfl
  have hc2 : (src == "" || !env.pathExists src) = false := by
    have h0 : (src == "") = false := by simpa using hs0
    rw [h0, hse]
    rfl
  have hanyF : (externalSWCsOf env p src).any
      (fun swcPath =>
        !(pathsAreEqual env (env.dirname (env.dirname swcPath)) p)
          && mustBuildProject env fuel (env.dirname (env.dirname swcPath))) = false := by
    rw [List.any_eq_false]
    intro swc hswc
    cases heq : pathsAreEqual env (env.dirname (env.dirname swc)) p with
    | true => simp [heq]
    | false => simp [heq, hdeps swc hswc heq]
  have hbin0' :
      (binaryPathOf env p src (env.joinPath (env.dirname src) "bin") == "") = false := by
    simpa using hbin0
  have hlocal :
      mustBuildLocal env p src (env.joinPath (env.dirname src) "bin") = true ↔
      ∃ f ∈ env.allSrcFiles src,
        env.mtimeOf (binaryPathOf env p src (env.joinPath (env.dirname src) "bin"))
          < env.mtimeOf f := by
    unfold mustBuildLocal
    simp only [hbin0', hbin, Bool.not_true, Bool.or_false, Bool.false_eq_true,
      if_false, List.any_eq_true, decide_eq_true_eq]
  simp only [mustBuildProject, hc1, Bool.false_eq_true, if_false, hs, hc2, hb,
    Bool.not_true, hanyF]
  exact hlocal

/-- Segment-dropping helper used by the concrete witness environments:
the parent directory of a slash-separated path (path.dirname). -/
def dropLastSeg (s : String) : String :=
  String.mk (joinChar '/' ((splitChar '/' s.toList).dropLast))

/-- Last-segment helper used by the concrete witness environments
(path.basename). -/
def lastSeg (s : String) : String :=
  String.mk ((splitChar '/' s.toList).getLastD [])

/-- Concrete environment for the C7 witness: one library project with an
up-to-date artifact directory, no dependencies, and one source file newer
than the artifact. -/
def envFresh : Env :=
  { pathExists := fun s => ["/ws/ProjA", "/ws/ProjA/src", "/ws/ProjA/bin",
      "/ws/ProjA/bin/proja.swc", "/ws/ProjA/src/Main.as"].contains s
  , dirname := dropLastSeg
  , joinPath := joinP
  , srcFolderOf := fun s => if s == "/ws/ProjA" then some "/ws/ProjA/src" else none
  , workspaceOf := fun _ => "/ws"
  , inclusionsOf := fun _ => []
  , classImportsOf := fun _ => []
  , projectAppsOf := fun _ => []
  , baseName := lastSeg
  , baseNameNoExt := fun s => s
  , mtimeOf := fun s => if s == "/ws/ProjA/src/Main.as" then 100 else 50
  , allSrcFiles := fun _ => ["/ws/ProjA/src/Main.as"]
  , realpathOf := fun s => some s
  , onWindows := false }

/-- C7 witness at the concrete environment. -/
theorem c7_fresh_source_wit :
    mustBuildProject envFresh 1 "/ws/ProjA" = true ↔
      ∃ f ∈ envFresh.allSrcFiles "/ws/ProjA/src",
        envFresh.mtimeOf (binaryPathOf envFresh "/ws/ProjA" "/ws/ProjA/src"
          (envFresh.joinPath (envFresh.dirname "/ws/ProjA/src") "bin"))
          < envFresh.mtimeOf f :=
  c7_fresh_source envFresh 0 "/ws/ProjA" "/ws/ProjA/src"
    (by decide) (by decide) (by decide) (by decide) (by decide) (by decide)
    (by decide) (by decide) (by decide)

/-! ### Claim C8: direct self-reference guard -/

/-- C8: when every resolved dependency artifact of the project is owned
(two directory levels up) by a path canonically equal to the project
itself, the dependency loop of mustBuildProject skips them all and never
recurses: for every fuel value the result equals the purely local
staleness check, so a direct self-reference cannot cause unbounded
recursion. -/
theorem c8_self_guard (env : Env) (fuel : Nat) (p src : String)
    (hp0 : p ≠ "") (hp : env.pathExists p = true)
    (hs : env.srcFolderOf p = some src) (hs0 : src ≠ "")
    (hse : env.pathExists src = true)
    (hb : env.pathExists (env.joinPath (env.dirname src) "bin") = true)
    (hself : ∀ swcPath ∈ externalSWCsOf env p src,
      pathsAreEqual env (env.dirname (env.dirname swcPath)) p = true) :
    mustBuildProject env (fuel + 1) p
      = mustBuildLocal env p src (env.joinPath (env.dirname src) "bin") := by
  have hc1 : (p == "" || !env.pathExists p) = false := by
    have h0 : (p == "") = false := by simpa using hp0
    rw [h0, hp]
    rfl
  have hc2 : (src == "" || !env.pathExists src) = false := by
    have h0 : (src == "") = false := by simpa using hs0
    rw [h0, hse]
    rfl
  have hanyF : (externalSWCsOf env p src).any
      (fun swcPath =>
        !(pathsAreEqual env (env.dirname (env.dirname swcPath)) p)
          && mustBuildProject env fuel (env.dirname (env.dirname swcPath))) = false := by
    rw [List.any_eq_false]
    intro swc hswc
    simp [hself swc hswc]
  simp only [mustBuildProject, hc1, Bool.false_eq_true, if_false, hs, hc2, hb,
    Bool.not_true, hanyF]

/-- Concrete environment for the C8 witness: a library whose own source
imports a class provided by its own to-be-produced artifact, so its sole
resolved dependency is itself. -/
def envSelf : Env :=
  { pathExists := fun s => ["/ws/LibS", "/ws/LibS/src", "/ws/LibS/bin",
      "/ws/LibS/bin/libs.swc", "/ws/LibS/src/B.as"].contains s
  , dirname := dropLastSeg
  , joinPath := joinP
  , srcFolderOf := fun s => if s == "/ws/LibS" then some "/ws/LibS/src" else none
  , workspaceOf := fun _ => "/ws"
  , inclusionsOf := fun _ => [⟨"/ws/LibS/bin/libs.swc", ["a.B"], []⟩]
  , classImportsOf := fun _ => ["a.B"]
  , projectAppsOf := fun _ => []
  , baseName := lastSeg
  , baseNameNoExt := fun s => s
  , mtimeOf := fun s => if s == "/ws/LibS/bin/libs.swc" then 100 else 50
  , allSrcFiles := fun _ => ["/ws/LibS/src/B.as"]
  , realpathOf := fun s => some s
  , onWindows := false }

/-- C8 witness: at the self-referential environment the result is the
local check at an arbitrary large fuel, showing no recursion occurs. -/
theorem c8_self_guard_wit :
    mustBuildProject envSelf 42 "/ws/LibS"
      = mustBuildLocal envSelf "/ws/LibS" "/ws/LibS/src"
          (envSelf.joinPath (envSelf.dirname "/ws/LibS/src") "bin") :=
  c8_self_guard envSelf 41 "/ws/LibS" "/ws/LibS/src"
    (by decide) (by decide) (by decide) (by decide) (by decide) (by decide)
    (by decide)

/-! ## CacheInvalidator: deleteCache (sirius.js.old, lines 420-471) -/

/-- An observable deletion performed by deleteCache: a binary artifact
(deletePathNode on a swc/swf) or the workspace inclusions cache file. -/
inductive DelAction
  | delBinary (p : String)
  | delCache (p : String)
deriving DecidableEq

/-- The name of the persisted index cache file at the workspace root. -/
def inclusionsFileName : String := "sirius.inclusions.cache"

/-- fs.existsSync against the environment minus the files deleted so far
during the current invalidation. -/
def existsNow (env : Env) (deleted : List String) (p : String) : Bool :=
  env.pathExists p && !(deleted.contains p)

/-- The source-folder-guarded block of deleteCache (lines 426-460): the
dependency recursion (abstracted as the recurse callback, which the caller
instantiates with the fuel-decremented deleteCache at
keepInclusionsFile = true) followed by the deletion of the project's own
binary. Skipped entirely when the project has no existing source folder. -/
def deleteCacheBody (env : Env)
    (recurse : String → List String → List DelAction × List String)
    (projectFolderPath : String) (deleted : List String) :
    List DelAction × List String :=
  match env.srcFolderOf projectFolderPath with
  | none => ([], deleted)
  | some sourceFolder =>
    if sourceFolder == "" || !(existsNow env deleted sourceFolder) then
      ([], deleted)
    else
      let afterDeps := (externalSWCsOf env projectFolderPath sourceFolder).foldl
        (fun st swcPath =>
          if pathsAreEqual env (env.dirname (env.dirname swcPath))
              projectFolderPath then st
          else
            let r := recurse (env.dirname (env.dirname swcPath)) st.2
            (st.1 ++ r.1, r.2)) ([], deleted)
      let binFolder := env.joinPath (env.dirname sourceFolder) "bin"
      let binaryFilePath := binaryPathOf env projectFolderPath sourceFolder binFolder
      if binaryFilePath != "" && existsNow env afterDeps.2 binaryFilePath then
        (afterDeps.1 ++ [DelAction.delBinary binaryFilePath],
          binaryFilePath :: afterDeps.2)
      else afterDeps

/-- deleteCache translated from the source, with a fuel bound on the
recursion and an explicit trace: returns the ordered list of deletions
performed together with the updated deleted-files set. Nested recursive
calls on dependency projects pass keepInclusionsFile = true, and the cache
file deletion happens last, only when keepInclusionsFile is false. -/
def deleteCache (env : Env) : Nat → String → Bool → List String →
    List DelAction × List String
  | 0, _, _, deleted => ([], deleted)
  | fuel + 1, projectFolderPath, keepInclusionsFile, deleted =>
    if projectFolderPath == "" || !(existsNow env deleted projectFolderPath) then
      ([], deleted)
    else
      let workspacePath := env.workspaceOf projectFolderPath
      let inner := deleteCacheBody env
        (fun q d => deleteCache env fuel q true d) projectFolderPath deleted
      if keepInclusionsFile then inner
      else
        let cachedInclusionsFile := env.joinPath workspacePath inclusionsFileName
        if existsNow env inner.2 cachedInclusionsFile then
          (inner.1 ++ [DelAction.delCache cachedInclusionsFile],
            cachedInclusionsFile :: inner.2)
        else inner

/-- Is an action a deletion of the inclusions cache file? -/
def isCacheDel : DelAction → Bool
  | DelAction.delCache _ => true
  | DelAction.delBinary _ => false

/-! ### Trace lemmas for deleteCache -/

theorem foldl_trace_clean
    (g : (List DelAction × List String) → String → (List DelAction × List String))
    (hg : ∀ st swc, ∃ tr, (g st swc).1 = st.1 ++ tr ∧ tr.filter isCacheDel = []) :
    ∀ (l : List String) (st : List DelAction × List String),
      st.1.filter isCacheDel = [] →
      ((l.foldl g st).1).filter isCacheDel = [] := by
  intro l
  induction l with
  | nil =>
    intro st h
    simpa using h
  | cons a as ih =>
    intro st h
    rw [List.foldl_cons]
    apply ih
    rcases hg st a with ⟨tr, hEq, hClean⟩
    rw [hEq, List.filter_append, h, hClean]
    rfl

theorem deleteCacheBody_clean (env : Env)
    (recurse : String → List String → List DelAction × List String)
    (hrec : ∀ q d, ((recurse q d).1).filter isCacheDel = [])
    (p : String) (deleted : List String) :
    ((deleteCacheBody env recurse p deleted).1).filter isCacheDel = [] := by
  unfold deleteCacheBody
  cases hsrc : env.srcFolderOf p with
  | none => rfl
  | some sourceFolder =>
    simp only []
    split
    · rfl
    · have hAfter : ((List.foldl
          (fun st swcPath =>
            if pathsAreEqual env (env.dirname (env.dirname swcPath)) p then st
            else
              (st.1 ++ (recurse (env.dirname (env.dirname swcPath)) st.2).1,
                (recurse (env.dirname (env.dirname swcPath)) st.2).2))
          ([], deleted) (externalSWCsOf env p sourceFolder)).1).filter isCacheDel
          = [] := by
        apply foldl_trace_clean
        · intro st swc
          by_cases hpe : pathsAreEqual env (env.dirname (env.dirname swc)) p = true
          · refine ⟨[], ?_, rfl⟩
            simp [hpe]
          · refine ⟨(recurse (env.dirname (env.dirname swc)) st.2).1, ?_, hrec _ _⟩
            simp [hpe]
        · rfl
      split
      · rw [List.filter_append, hAfter]
        rfl
      · exact hAfter

theorem deleteCache_keep_clean (env : Env) :
    ∀ (fuel : Nat) (p : String) (deleted : List String),
      ((deleteCache env fuel p true deleted).1).filter isCacheDel = [] := by
  intro fuel
  induction fuel with
  | zero =>
    intro p deleted
    rfl
  | succ fuel ih =>
    intro p deleted
    unfold deleteCache
    split
    · rfl
    · simp only [if_true]
      exact deleteCacheBody_clean env _ (fun q d => ih q d) p deleted

/-! ### Claim C9: cache deleted at most once, by the outermost call -/

/-- C9: for every top-level invalidation (keepInclusionsFile = false) the
deletion trace splits into a body containing no cache-file deletion — all
nested recursive calls run with keepInclusionsFile = true and therefore
never delete the cache — followed by at most one trailing cache-file
deletion performed by the outermost call as its final step. -/
theorem c9_cache_once (env : Env) (fuel : Nat) (p : String)
    (deleted : List String) :
    ∃ body tail,
      (deleteCache env fuel p false deleted).1 = body ++ tail ∧
      body.filter isCacheDel = [] ∧
      (tail = [] ∨ ∃ c, tail = [DelAction.delCache c]) := by
  cases fuel with
  | zero => exact ⟨[], [], rfl, rfl, Or.inl rfl⟩
  | succ fuel =>
    unfold deleteCache
    split
    · exact ⟨[], [], rfl, rfl, Or.inl rfl⟩
    · simp only [Bool.false_eq_true, if_false]
      have hInner : ((deleteCacheBody env
          (fun q d => deleteCache env fuel q true d) p deleted).1).filter isCacheDel
          = [] :=
        deleteCacheBody_clean env _
          (fun q d => deleteCache_keep_clean env fuel q d) p deleted
      split
      · exact ⟨(deleteCacheBody env
            (fun q d => deleteCache env fuel q true d) p deleted).1,
          [DelAction.delCache
            (env.joinPath (env.workspaceOf p) inclusionsFileName)],
          rfl, hInner, Or.inr ⟨_, rfl⟩⟩
      · exact ⟨(deleteCacheBody env
            (fun q d => deleteCache env fuel q true d) p deleted).1,
          [], (List.append_nil _).symm, hInner, Or.inl rfl⟩

/-! ### Claim C10: project without a source folder -/

/-- C10: invalidating an existing project that has no source folder deletes
no binary artifact at all — the source-guarded block is skipped — yet
still deletes the workspace's inclusions cache file exactly when that file
exists. -/
theorem c10_no_src (env : Env) (fuel : Nat) (p : String) (deleted : List String)
    (hp0 : p ≠ "") (hex : existsNow env deleted p = true)
    (hsrc : env.srcFolderOf p = none) :
    deleteCache env (fuel + 1) p false deleted =
      if existsNow env deleted
          (env.joinPath (env.workspaceOf p) inclusionsFileName) then
        ([DelAction.delCache (env.joinPath (env.workspaceOf p) inclusionsFileName)],
          env.joinPath (env.workspaceOf p) inclusionsFileName :: deleted)
      else ([], deleted) := by
  have hguard : (p == "" || !(existsNow env deleted p)) = false := by
    have h0 : (p == "") = false := by simpa using hp0
    rw [h0, hex]
    rfl
  have hbody : deleteCacheBody env
      (fun q d => deleteCache env fuel q true d) p deleted = ([], deleted) := by
    unfold deleteCacheBody
    rw [hsrc]
  unfold deleteCache
  rw [hguard]
  simp only [Bool.false_eq_true, if_false, hbody, List.nil_append]

/-- Concrete environment for the C10 witness: an existing project folder
with no source folder anywhere beneath it, in a workspace whose inclusions
cache file exists. -/
def envNoSrc : Env :=
  { pathExists := fun s => ["/ws/Empty", "/ws/sirius.inclusions.cache"].contains s
  , dirname := dropLastSeg
  , joinPath := joinP
  , srcFolderOf := fun _ => none
  , workspaceOf := fun _ => "/ws"
  , inclusionsOf := fun _ => []
  , classImportsOf := fun _ => []
  , projectAppsOf := fun _ => []
  , baseName := lastSeg
  , baseNameNoExt := fun s => s
  , mtimeOf := fun _ => 0
  , allSrcFiles := fun _ => []
  , realpathOf := fun s => some s
  , onWindows := false }

/-- C10 witness at the concrete environment. -/
theorem c10_no_src_wit :
    deleteCache envNoSrc 3 "/ws/Empty" false [] =
      if existsNow envNoSrc []
          (envNoSrc.joinPath (envNoSrc.workspaceOf "/ws/Empty") inclusionsFileName) then
        ([DelAction.delCache
            (envNoSrc.joinPath (envNoSrc.workspaceOf "/ws/Empty") inclusionsFileName)],
          envNoSrc.joinPath (envNoSrc.workspaceOf "/ws/Empty") inclusionsFileName :: [])
      else ([], []) :=
  c10_no_src envNoSrc 2 "/ws/Empty" [] (by decide) (by decide) (by decide)
